import Mathlib

/-!
Verification of the EVM state-backend contract (src/backend/mod.rs).

The source file declares the data model (Basic, Apply, Log) and the two
capability traits Backend / ApplyBackend.  The reference in-memory
implementation (mod memory: MemoryBackend, MemoryVicinity, MemoryAccount)
is re-exported but its source is not part of the given tree, so its
behaviour is modelled from the specification's words, as noted on each
such definition.

Machine integers (H160 addresses, H256 words, U256 scalars) are compared
by equality only and used as map keys, so they are embedded as Nat.
Byte sequences are lists of Nat.
-/

namespace EvmBackend

/-- Basic account information (struct Basic): balance and nonce. -/
structure Basic where
  balance : Nat
  nonce : Nat
deriving DecidableEq, Repr

/-- The derived Default for Basic: zero balance, zero nonce. -/
def Basic.default : Basic := ⟨0, 0⟩

/-- Log record (re-exported ethereum::Log): emitting address, topics, data. -/
structure Log where
  address : Nat
  topics : List Nat
  data : List Nat
deriving DecidableEq, Repr

/-- Apply state operation (enum Apply), with the storage iterator
instantiated to a list of (key, value) pairs. -/
inductive Apply where
  | Modify (address : Nat) (basic : Basic) (code : Option (List Nat))
      (storage : List (Nat × Nat)) (reset_storage : Bool)
  | Delete (address : Nat)
deriving DecidableEq, Repr

/-- The address an Apply record refers to. -/
def Apply.address : Apply → Nat
  | .Modify a _ _ _ _ => a
  | .Delete a => a

/-- Transfer (crate root, declared only by signature in src):
Modelled from the spec: source, target, and value to move as part of a call. -/
structure Transfer where
  source : Nat
  target : Nat
  value : Nat
deriving DecidableEq, Repr

/-- Context (crate root, declared only by signature in src):
Modelled from the spec: the caller address, the callee address, and the
apparent value visible to the callee, for one nested-call attempt. -/
structure Context where
  address : Nat
  caller : Nat
  apparent_value : Nat
deriving DecidableEq, Repr

/-- ExitReason (crate root, declared only by signature in src):
Modelled from the spec: the exit reason of a handled call
(success / revert / fatal error), carried inside the returned outcome. -/
inductive ExitReason where
  | Succeed
  | Revert
  | Error
  | Fatal
deriving DecidableEq, Repr

/-- Capture (crate root, declared only by signature in src):
Modelled from the spec: a two-variant result, either a final answer (Exit)
or a suspension requiring the interpreter to resume it later (Trap). -/
inductive Capture (E T : Type) where
  | Exit (e : E)
  | Trap (t : T)

/-- core::convert::Infallible: the uninhabited type. -/
abbrev Infallible := Empty

/-- The return type of Backend::handle_call:
Option of Capture with an Infallible trap payload. -/
abbrev HandleCallOutcome := Option (Capture (ExitReason × List Nat) Infallible)

/-! ## Association lists

The reference backend is map-backed; maps are embedded as association
lists with first-match lookup, mirroring BTreeMap observational behaviour. -/

/-- First-match lookup in an association list keyed by Nat. -/
def alookup {α : Type} : List (Nat × α) → Nat → Option α
  | [], _ => none
  | p :: rest, k => if p.1 = k then some p.2 else alookup rest k

/-- Remove every binding of a key. -/
def aremove {α : Type} : List (Nat × α) → Nat → List (Nat × α)
  | [], _ => []
  | p :: rest, k => if p.1 = k then aremove rest k else p :: aremove rest k

/-- Insert a binding, replacing any previous binding of the key. -/
def ainsert {α : Type} (m : List (Nat × α)) (k : Nat) (v : α) : List (Nat × α) :=
  (k, v) :: aremove m k

/-! ## Storage

A per-address storage map from 256-bit keys to 256-bit values.
Reads default missing keys to the zero value. -/

/-- Per-address storage: key to value association list. -/
abbrev Storage := List (Nat × Nat)

/-- Storage read: the zero value for any absent key. -/
def lookupD (m : Storage) (k : Nat) : Nat := (alookup m k).getD 0

/-- Apply one (key, value) pair to a storage map: a zero value clears the
slot, a nonzero value upserts it. -/
def applyPair (m : Storage) (p : Nat × Nat) : Storage :=
  if p.2 = 0 then aremove m p.1 else ainsert m p.1 p.2

/-- Apply a sequence of (key, value) pairs in order. -/
def applyPairs : List (Nat × Nat) → Storage → Storage
  | [], m => m
  | p :: rest, m => applyPairs rest (applyPair m p)

/-- The last value a pair list assigns to a key, if any. -/
def lastAssigned : List (Nat × Nat) → Nat → Option Nat
  | [], _ => none
  | p :: rest, k =>
    match lastAssigned rest k with
    | some v => some v
    | none => if p.1 = k then some p.2 else none

/-! ## The reference in-memory backend

Modelled from the spec: the source re-exports MemoryBackend, MemoryVicinity
and MemoryAccount from mod memory, whose file is not part of the given tree.
Section 4.3 describes it as a concrete backend over an account map, a
per-address storage map and a code map; sections 4.1 and 4.2 fix the
observable behaviour embedded below. -/

/-- MemoryAccount: per-account record of the reference backend. -/
structure MemoryAccount where
  balance : Nat
  nonce : Nat
  storage : Storage
  code : List Nat
deriving DecidableEq, Repr

/-- The default (fresh) account: all-zero, no storage, no code. -/
def MemoryAccount.default : MemoryAccount := ⟨0, 0, [], []⟩

/-- An account is empty when balance, nonce are zero and it has no code
(storage does not enter the emptiness test). -/
def MemoryAccount.isEmptyAcct (a : MemoryAccount) : Prop :=
  a.balance = 0 ∧ a.nonce = 0 ∧ a.code = []

instance (a : MemoryAccount) : Decidable a.isEmptyAcct := by
  unfold MemoryAccount.isEmptyAcct; infer_instance

/-- The account state map of the reference backend. -/
abbrev AccountMap := List (Nat × MemoryAccount)

/-- MemoryVicinity: environment information of the reference backend.
Modelled from the spec: environment constants exposed by the read contract. -/
structure MemoryVicinity where
  gas_price : Nat
  origin : Nat
  block_hashes : List Nat
  block_number : Nat
  block_coinbase : Nat
  block_timestamp : Nat
  block_difficulty : Nat
  block_gas_limit : Nat
  chain_id : Nat
deriving DecidableEq, Repr

/-- MemoryBackend: vicinity plus account map plus the durable log stream. -/
structure MemoryBackend where
  vicinity : MemoryVicinity
  state : AccountMap
  logs : List Log
deriving DecidableEq, Repr

/-- A fresh backend over a vicinity: no accounts, no logs. -/
def MemoryBackend.empty (v : MemoryVicinity) : MemoryBackend := ⟨v, [], []⟩

/-! State-level read helpers (the Backend read methods depend only on the
account map). -/

/-- Modelled from the spec: basic returns the default for absent accounts. -/
def readBasic (st : AccountMap) (address : Nat) : Basic :=
  match alookup st address with
  | some acct => ⟨acct.balance, acct.nonce⟩
  | none => Basic.default

/-- Modelled from the spec: code is the empty sequence for absent accounts. -/
def readCode (st : AccountMap) (address : Nat) : List Nat :=
  match alookup st address with
  | some acct => acct.code
  | none => []

/-- Modelled from the spec: storage reads the zero value for any slot never
written and for absent accounts. -/
def readStorage (st : AccountMap) (address : Nat) (index : Nat) : Nat :=
  match alookup st address with
  | some acct => lookupD acct.storage index
  | none => 0

/-- Modelled from the spec: exists is true iff the address has any
non-default footprint (nonzero balance, nonzero nonce, non-empty code, or
some storage slot present with a nonzero value). -/
def readExists (st : AccountMap) (address : Nat) : Bool :=
  match alookup st address with
  | some acct =>
    acct.balance != 0 || acct.nonce != 0 || !acct.code.isEmpty ||
      acct.storage.any (fun p => lookupD acct.storage p.1 != 0)
  | none => false

/-- Stand-in for the canonical code hash (keccak-256 in the real system,
out of scope here); the claims depend only on the hash being a fixed
function of the code bytes, with a fixed well-known constant for empty
code. -/
def hashOfCode (b : List Nat) : Nat := b.foldl (fun h x => h * 257 + x + 1) 5381

/-- The canonical hash of empty code. -/
def emptyCodeHash : Nat := hashOfCode []

/-! Backend read methods of the reference backend. -/

def MemoryBackend.gas_price (b : MemoryBackend) : Nat := b.vicinity.gas_price

def MemoryBackend.origin (b : MemoryBackend) : Nat := b.vicinity.origin

/-- Modelled from the spec: a backend with no data for a requested
historical block hash returns the zero hash, never an error. -/
def MemoryBackend.block_hash (b : MemoryBackend) (number : Nat) : Nat :=
  b.vicinity.block_hashes.getD number 0

def MemoryBackend.block_number (b : MemoryBackend) : Nat := b.vicinity.block_number

def MemoryBackend.block_coinbase (b : MemoryBackend) : Nat := b.vicinity.block_coinbase

def MemoryBackend.block_timestamp (b : MemoryBackend) : Nat := b.vicinity.block_timestamp

def MemoryBackend.block_difficulty (b : MemoryBackend) : Nat := b.vicinity.block_difficulty

def MemoryBackend.block_gas_limit (b : MemoryBackend) : Nat := b.vicinity.block_gas_limit

def MemoryBackend.chain_id (b : MemoryBackend) : Nat := b.vicinity.chain_id

def MemoryBackend.existsAddr (b : MemoryBackend) (address : Nat) : Bool :=
  readExists b.state address

def MemoryBackend.basic (b : MemoryBackend) (address : Nat) : Basic :=
  readBasic b.state address

def MemoryBackend.code (b : MemoryBackend) (address : Nat) : List Nat :=
  readCode b.state address

def MemoryBackend.code_hash (b : MemoryBackend) (address : Nat) : Nat :=
  hashOfCode (readCode b.state address)

def MemoryBackend.code_size (b : MemoryBackend) (address : Nat) : Nat :=
  (readCode b.state address).length

def MemoryBackend.storage (b : MemoryBackend) (address : Nat) (index : Nat) : Nat :=
  readStorage b.state address index

/-- Modelled from the spec: the reference backend declines every external
call (returning absent defers the call to the interpreter); it is a pure
read of the backend, with no state side effect. -/
def MemoryBackend.handle_call (_b : MemoryBackend) (_code_address : Nat)
    (_transfer : Option Transfer) (_input : List Nat) (_target_gas : Option Nat)
    (_is_static : Bool) (_take_l64 : Bool) (_take_stipend : Bool)
    (_context : Context) : HandleCallOutcome :=
  none

/-! ## The write contract (ApplyBackend::apply)

Modelled from the spec, section 4.2: each Modify upserts balance/nonce,
replaces code iff present, merges or resets storage per reset_storage
(a zero-valued pair clearing its slot); each Delete removes the account,
its code and all storage; after processing all values, with delete_empty
set, every account that is now empty and was touched by this call is
removed entirely; all logs are appended in the exact order supplied. -/

/-- Process one Apply record on the account map. -/
def applyRec (st : AccountMap) : Apply → AccountMap
  | .Modify address bas code storage reset_storage =>
    let old := (alookup st address).getD MemoryAccount.default
    let base := if reset_storage then [] else old.storage
    ainsert st address
      { balance := bas.balance
        nonce := bas.nonce
        storage := applyPairs storage base
        code := code.getD old.code }
  | .Delete address => aremove st address

/-- The addresses touched by the records of one apply call. -/
def touchedAddrs (values : List Apply) : List Nat := values.map Apply.address

/-- Remove every touched account that is now empty (the delete_empty pass). -/
def pruneEmpty (touched : List Nat) (st : AccountMap) : AccountMap :=
  touched.foldl
    (fun st a =>
      match alookup st a with
      | some acct => if acct.isEmptyAcct then aremove st a else st
      | none => st)
    st

/-- Process all Apply records in order. -/
def applyValues (values : List Apply) (st : AccountMap) : AccountMap :=
  values.foldl applyRec st

/-- Append the log records one by one, in order. -/
def appendLogs (logs : List Log) (stream : List Log) : List Log :=
  logs.foldl (fun stream l => stream ++ [l]) stream

/-- ApplyBackend::apply of the reference backend. -/
def MemoryBackend.apply (b : MemoryBackend) (values : List Apply) (logs : List Log)
    (delete_empty : Bool) : MemoryBackend :=
  let st1 := applyValues values b.state
  let st2 := if delete_empty then pruneEmpty (touchedAddrs values) st1 else st1
  { b with state := st2, logs := appendLogs logs b.logs }

/-- A concrete vicinity for witnesses and counterexamples. -/
def vic0 : MemoryVicinity := ⟨0, 0, [], 0, 0, 0, 0, 0, 0⟩

/-- One apply invocation: the values, logs and delete_empty flag of a
single ApplyBackend::apply call. -/
structure ApplyCall where
  values : List Apply
  logs : List Log
  delete_empty : Bool
deriving DecidableEq, Repr

/-- Run a sequence of apply calls against a backend. -/
def runApplies (b : MemoryBackend) (calls : List ApplyCall) : MemoryBackend :=
  calls.foldl (fun b c => b.apply c.values c.logs c.delete_empty) b

/-- An address is untouched by a sequence of apply calls when no record of
any call names it. -/
def untouchedBy (a : Nat) (calls : List ApplyCall) : Bool :=
  calls.all (fun c => c.values.all (fun rec => rec.address != a))

/-- One invocation against the backend interface: a Backend read method,
a handle_call, or an ApplyBackend::apply. -/
inductive Query where
  | qGasPrice
  | qOrigin
  | qBlockHash (number : Nat)
  | qBlockNumber
  | qBlockCoinbase
  | qBlockTimestamp
  | qBlockDifficulty
  | qBlockGasLimit
  | qChainId
  | qExists (address : Nat)
  | qBasic (address : Nat)
  | qCodeHash (address : Nat)
  | qCodeSize (address : Nat)
  | qCode (address : Nat)
  | qStorage (address : Nat) (index : Nat)
  | qHandleCall (code_address : Nat) (transfer : Option Transfer) (input : List Nat)
      (target_gas : Option Nat) (is_static : Bool) (take_l64 : Bool)
      (take_stipend : Bool) (context : Context)
  | qApply (values : List Apply) (logs : List Log) (delete_empty : Bool)

/-- The answer an invocation returns. -/
inductive Answer where
  | aUnit
  | aBool (b : Bool)
  | aNat (n : Nat)
  | aBasic (x : Basic)
  | aBytes (bs : List Nat)
  | aOutcome (r : HandleCallOutcome)

/-- Execute one invocation: the resulting backend and the answer. -/
def step (b : MemoryBackend) : Query → MemoryBackend × Answer
  | .qGasPrice => (b, .aNat b.gas_price)
  | .qOrigin => (b, .aNat b.origin)
  | .qBlockHash number => (b, .aNat (b.block_hash number))
  | .qBlockNumber => (b, .aNat b.block_number)
  | .qBlockCoinbase => (b, .aNat b.block_coinbase)
  | .qBlockTimestamp => (b, .aNat b.block_timestamp)
  | .qBlockDifficulty => (b, .aNat b.block_difficulty)
  | .qBlockGasLimit => (b, .aNat b.block_gas_limit)
  | .qChainId => (b, .aNat b.chain_id)
  | .qExists address => (b, .aBool (b.existsAddr address))
  | .qBasic address => (b, .aBasic (b.basic address))
  | .qCodeHash address => (b, .aNat (b.code_hash address))
  | .qCodeSize address => (b, .aNat (b.code_size address))
  | .qCode address => (b, .aBytes (b.code address))
  | .qStorage address index => (b, .aNat (b.storage address index))
  | .qHandleCall ca tr inp tg is_st l64 stip ctx =>
    (b, .aOutcome (b.handle_call ca tr inp tg is_st l64 stip ctx))
  | .qApply values logs delete_empty => (b.apply values logs delete_empty, .aUnit)

/-- Whether an invocation is the mutating apply call. -/
def isApplyQ : Query → Bool
  | .qApply _ _ _ => true
  | _ => false

/-- Run a sequence of invocations, threading the backend state. -/
def runQueries (b : MemoryBackend) : List Query → MemoryBackend
  | [] => b
  | q :: rest => runQueries (step b q).1 rest

@[simp] theorem alookup_nil {α : Type} (k : Nat) : alookup ([] : List (Nat × α)) k = none := rfl

theorem alookup_aremove {α : Type} (m : List (Nat × α)) (x k : Nat) :
    alookup (aremove m x) k = if k = x then none else alookup m k := by
  induction m with
  | nil => simp [aremove]
  | cons p rest ih =>
    simp only [aremove]
    by_cases hpx : p.1 = x
    · rw [if_pos hpx, ih]
      by_cases hkx : k = x
      · simp [hkx]
      · have hpk : ¬ p.1 = k := fun h => hkx (h ▸ hpx)
        simp [hkx, alookup, hpk]
    · rw [if_neg hpx]
      simp only [alookup]
      by_cases hpk : p.1 = k
      · have hkx : ¬ k = x := fun h => hpx (hpk.trans h)
        rw [if_pos hpk, if_pos hpk, if_neg hkx]
      · rw [if_neg hpk, if_neg hpk, ih]

theorem alookup_ainsert {α : Type} (m : List (Nat × α)) (x k : Nat) (v : α) :
    alookup (ainsert m x v) k = if x = k then some v else alookup m k := by
  by_cases hxk : x = k
  · simp [ainsert, alookup, hxk]
  · have hkx : ¬ k = x := fun h => hxk h.symm
    simp [ainsert, alookup, hxk, alookup_aremove, hkx]

theorem alookup_mem {α : Type} (m : List (Nat × α)) (k : Nat) (v : α)
    (h : alookup m k = some v) : (k, v) ∈ m := by
  induction m with
  | nil => simp [alookup] at h
  | cons p rest ih =>
    cases p with
    | mk a b =>
      by_cases hpk : a = k
      · simp [alookup, hpk] at h
        subst hpk
        subst h
        exact List.mem_cons_self _ _
      · simp [alookup, hpk] at h
        exact List.mem_cons_of_mem _ (ih h)

theorem lookupD_applyPair (m : Storage) (p : Nat × Nat) (k : Nat) :
    lookupD (applyPair m p) k = if p.1 = k then p.2 else lookupD m k := by
  by_cases hv : p.2 = 0
  · by_cases hk : p.1 = k
    · simp [applyPair, lookupD, hv, alookup_aremove, hk.symm]
    · have hkx : ¬ k = p.1 := fun h => hk h.symm
      simp [applyPair, lookupD, hv, alookup_aremove, hk, hkx]
  · simp [applyPair, lookupD, hv, alookup_ainsert]
    by_cases hk : p.1 = k <;> simp [hk]

/-- Central storage-merge lemma: after applying a pair list, a key reads its
last assigned value (a zero assignment reading as the cleared zero), and an
unassigned key reads what the underlying map gives. -/
theorem lookupD_applyPairs (pairs : List (Nat × Nat)) (m : Storage) (k : Nat) :
    lookupD (applyPairs pairs m) k =
      match lastAssigned pairs k with
      | some v => v
      | none => lookupD m k := by
  induction pairs generalizing m with
  | nil => simp [applyPairs, lastAssigned]
  | cons p rest ih =>
    simp only [applyPairs, lastAssigned, ih]
    cases h : lastAssigned rest k with
    | some v => simp
    | none =>
      simp only [lookupD_applyPair]
      by_cases hk : p.1 = k <;> simp [hk]

theorem lastAssigned_eq_none (pairs : List (Nat × Nat)) (k : Nat)
    (h : k ∉ pairs.map Prod.fst) : lastAssigned pairs k = none := by
  induction pairs with
  | nil => rfl
  | cons p rest ih =>
    simp only [List.map_cons, List.mem_cons] at h
    push_neg at h
    have hk : ¬ p.1 = k := fun he => h.1 he.symm
    simp [lastAssigned, ih h.2, hk]

/-! ### Lemmas about the write operations -/

theorem alookup_applyRec_ne (st : AccountMap) (rec : Apply) (a : Nat)
    (h : rec.address ≠ a) : alookup (applyRec st rec) a = alookup st a := by
  cases rec with
  | Modify address bas code storage reset_storage =>
    have h2 : ¬ address = a := h
    simp [applyRec, alookup_ainsert, h2]
  | Delete address =>
    have h2 : ¬ a = address := fun he => h he.symm
    simp [applyRec, alookup_aremove, h2]

theorem alookup_applyValues_notTouched (values : List Apply) (st : AccountMap)
    (a : Nat) (h : a ∉ touchedAddrs values) :
    alookup (applyValues values st) a = alookup st a := by
  induction values generalizing st with
  | nil => rfl
  | cons rec rest ih =>
    simp only [touchedAddrs, List.map_cons, List.mem_cons] at h
    push_neg at h
    have h1 : rec.address ≠ a := fun he => h.1 he.symm
    have h2 : a ∉ touchedAddrs rest := by
      simpa [touchedAddrs] using h.2
    simp only [applyValues, List.foldl_cons]
    rw [show rest.foldl applyRec (applyRec st rec) = applyValues rest (applyRec st rec) from rfl]
    rw [ih (applyRec st rec) h2, alookup_applyRec_ne st rec a h1]

/-- What pruning does to each lookup: a touched address whose account is
empty reads as absent afterwards; every other lookup is unchanged. -/
theorem alookup_pruneEmpty (touched : List Nat) (st : AccountMap) (a : Nat) :
    alookup (pruneEmpty touched st) a =
      match alookup st a with
      | none => none
      | some acct => if a ∈ touched ∧ acct.isEmptyAcct then none else some acct := by
  induction touched generalizing st with
  | nil => cases h : alookup st a <;> simp [pruneEmpty, h]
  | cons x rest ih =>
    simp only [pruneEmpty, List.foldl_cons] at *
    rw [ih]
    by_cases hax : a = x
    · subst hax
      cases h : alookup st a with
      | none => simp [h]
      | some acct =>
        by_cases he : acct.isEmptyAcct
        · simp [h, he, alookup_aremove]
        · simp [h, he]
    · have step_eq :
        alookup
          (match alookup st x with
           | some acct => if acct.isEmptyAcct then aremove st x else st
           | none => st) a = alookup st a := by
        cases h : alookup st x with
        | none => rfl
        | some acct =>
          by_cases he : acct.isEmptyAcct
          · simp [he, alookup_aremove, hax]
          · simp [he]
      rw [step_eq]
      cases h : alookup st a with
      | none => rfl
      | some acct => simp [List.mem_cons, hax]

theorem appendLogs_eq (logs stream : List Log) :
    appendLogs logs stream = stream ++ logs := by
  induction logs generalizing stream with
  | nil => simp [appendLogs]
  | cons l rest ih =>
    simp only [appendLogs, List.foldl_cons] at *
    rw [ih (stream ++ [l])]
    simp

theorem alookup_apply_notTouched (b : MemoryBackend) (values : List Apply)
    (logs : List Log) (delete_empty : Bool) (a : Nat) (h : a ∉ touchedAddrs values) :
    alookup (b.apply values logs delete_empty).state a = alookup b.state a := by
  cases delete_empty with
  | false =>
    show alookup (applyValues values b.state) a = alookup b.state a
    exact alookup_applyValues_notTouched values b.state a h
  | true =>
    show alookup (pruneEmpty (touchedAddrs values) (applyValues values b.state)) a =
      alookup b.state a
    rw [alookup_pruneEmpty, alookup_applyValues_notTouched values b.state a h]
    cases halo : alookup b.state a with
    | none => rfl
    | some acct => simp [h]

theorem storage_any_iff (m : Storage) :
    (m.any (fun p => lookupD m p.1 != 0) = true) ↔ ∃ k, lookupD m k ≠ 0 := by
  rw [List.any_eq_true]
  constructor
  · rintro ⟨p, _, hp⟩
    exact ⟨p.1, by simpa using hp⟩
  · rintro ⟨k, hk⟩
    cases halo : alookup m k with
    | none => exact absurd (by simp [lookupD, halo]) hk
    | some v =>
      refine ⟨(k, v), alookup_mem m k v halo, ?_⟩
      simpa [lookupD, halo] using hk

/-- Footprint characterisation: exists reads true precisely when one of the
other read methods reports a non-default value. -/
theorem readExists_iff (st : AccountMap) (a : Nat) :
    readExists st a = true ↔
      ((readBasic st a).balance ≠ 0 ∨ (readBasic st a).nonce ≠ 0 ∨
       readCode st a ≠ [] ∨ ∃ k, readStorage st a k ≠ 0) := by
  cases h : alookup st a with
  | none =>
    simp [readExists, readBasic, readCode, readStorage, h, Basic.default]
  | some acct =>
    simp only [readExists, readBasic, readCode, readStorage, h, Bool.or_eq_true,
      bne_iff_ne, ne_eq, Bool.not_eq_true', List.isEmpty_eq_false, storage_any_iff]
    tauto

/-- Empty-account pruning never changes what code reads: a pruned account
had empty code, which is also what the pruned state reads. -/
theorem readCode_pruneEmpty (touched : List Nat) (st : AccountMap) (a : Nat) :
    readCode (pruneEmpty touched st) a = readCode st a := by
  simp only [readCode, alookup_pruneEmpty]
  cases h : alookup st a with
  | none => rfl
  | some acct =>
    by_cases hc : a ∈ touched ∧ acct.isEmptyAcct
    · simp [hc, hc.2.2.2]
    · simp [hc]

theorem alookup_applyRec_modify_self (st : AccountMap) (a : Nat) (bas : Basic)
    (code : Option (List Nat)) (pairs : List (Nat × Nat)) (rs : Bool) :
    alookup (applyRec st (.Modify a bas code pairs rs)) a =
      some
        { balance := bas.balance
          nonce := bas.nonce
          storage := applyPairs pairs
            (if rs then [] else ((alookup st a).getD MemoryAccount.default).storage)
          code := code.getD ((alookup st a).getD MemoryAccount.default).code } := by
  cases rs <;> simp [applyRec, alookup_ainsert]

theorem apply_single_state (b : MemoryBackend) (rec : Apply) (logs : List Log)
    (delete_empty : Bool) :
    (b.apply [rec] logs delete_empty).state =
      if delete_empty then pruneEmpty [rec.address] (applyRec b.state rec)
      else applyRec b.state rec := by
  cases delete_empty <;> rfl

/-! ## Claims -/

/-- Claim C5: every apply appends the supplied logs to the durable log
stream in exactly the order supplied, with no reordering and no
deduplication, independently of the Apply records processed in the same
call (the resulting stream does not depend on values at all). -/
theorem claim5_log_order (b : MemoryBackend) (values : List Apply) (logs : List Log)
    (delete_empty : Bool) :
    (b.apply values logs delete_empty).logs = b.logs ++ logs := by
  cases delete_empty <;> exact appendLogs_eq logs b.logs

/-- Claim C6: a present handle_call outcome is always the final-answer
variant (an exit reason paired with output bytes); the suspension variant
is uninhabited because its payload type Infallible is empty, so no outcome
can ever require the interpreter to resume it later. -/
theorem claim6_no_suspension :
    (∀ r : HandleCallOutcome, r = none ∨ ∃ e, r = some (Capture.Exit e))
    ∧ IsEmpty Infallible := by
  constructor
  · intro r
    cases r with
    | none => exact Or.inl rfl
    | some c =>
      cases c with
      | Exit e => exact Or.inr ⟨e, rfl⟩
      | Trap t => exact t.elim
  · exact ⟨fun t => t.elim⟩

/-- Claim C7: exists returns true iff the address has a non-default
footprint: nonzero balance, nonzero nonce, non-empty code, or some
storage slot reading a nonzero value; exists is a total function so it
never fails. -/
theorem claim7_exists_footprint (b : MemoryBackend) (a : Nat) :
    b.existsAddr a = true ↔
      ((b.basic a).balance ≠ 0 ∨ (b.basic a).nonce ≠ 0 ∨ b.code a ≠ [] ∨
        ∃ k, b.storage a k ≠ 0) :=
  readExists_iff b.state a

/-- Claim C3: storage reads the zero value for any slot never written
(in particular on a fresh backend); applying a (key, 0) pair with
reset_storage false makes the slot read zero exactly as a never-set slot,
and even removes the slot from the underlying account map, so a cleared
slot is indistinguishable from an absent one. -/
theorem claim3_zero_indistinguishable :
    (∀ (v : MemoryVicinity) (a k : Nat), (MemoryBackend.empty v).storage a k = 0)
    ∧ (∀ (b : MemoryBackend) (a : Nat) (bas : Basic) (code : Option (List Nat))
        (k : Nat) (logs : List Log) (delete_empty : Bool),
        (b.apply [.Modify a bas code [(k, 0)] false] logs delete_empty).storage a k = 0)
    ∧ (∀ (st : AccountMap) (a : Nat) (bas : Basic) (code : Option (List Nat)) (k : Nat),
        alookup (((alookup (applyRec st (.Modify a bas code [(k, 0)] false)) a).getD
          MemoryAccount.default).storage) k = none) := by
  refine ⟨fun v a k => rfl, ?_, ?_⟩
  · intro b a bas code k logs delete_empty
    have hz : ∀ m : Storage, lookupD (applyPairs [(k, 0)] m) k = 0 := by
      intro m
      rw [lookupD_applyPairs]
      simp [lastAssigned]
    cases delete_empty with
    | false =>
      show readStorage (applyRec b.state (.Modify a bas code [(k, 0)] false)) a k = 0
      simp only [readStorage, alookup_applyRec_modify_self]
      exact hz _
    | true =>
      show readStorage
        (pruneEmpty [a] (applyRec b.state (.Modify a bas code [(k, 0)] false))) a k = 0
      simp only [readStorage, alookup_pruneEmpty, alookup_applyRec_modify_self,
        Bool.false_eq_true, if_false]
      split
      · next acct heq =>
          split at heq
          · exact Option.noConfusion heq
          · injection heq with h
            rw [← h]
            exact hz _
      · rfl
  · intro st a bas code k
    rw [alookup_applyRec_modify_self]
    show alookup (applyPairs [(k, 0)] _) k = none
    show alookup (aremove _ k) k = none
    simp [alookup_aremove]

/-- Claim C4: after apply processes a Delete record for an address, the
account is gone: exists reads false, code reads empty, and every storage
slot of the address reads zero. -/
theorem claim4_delete_removes (b : MemoryBackend) (a : Nat) (logs : List Log)
    (delete_empty : Bool) :
    (b.apply [.Delete a] logs delete_empty).existsAddr a = false
    ∧ (b.apply [.Delete a] logs delete_empty).code a = []
    ∧ ∀ k, (b.apply [.Delete a] logs delete_empty).storage a k = 0 := by
  have h : alookup (b.apply [.Delete a] logs delete_empty).state a = none := by
    cases delete_empty with
    | false =>
      show alookup (aremove b.state a) a = none
      simp [alookup_aremove]
    | true =>
      show alookup (pruneEmpty [a] (aremove b.state a)) a = none
      rw [alookup_pruneEmpty]
      simp [alookup_aremove]
  refine ⟨?_, ?_, fun k => ?_⟩
  · show readExists (b.apply [.Delete a] logs delete_empty).state a = false
    simp [readExists, h]
  · show readCode (b.apply [.Delete a] logs delete_empty).state a = []
    simp [readCode, h]
  · show readStorage (b.apply [.Delete a] logs delete_empty).state a k = 0
    simp [readStorage, h]

/-- Claim C2: processing a Modify record with reset_storage true first
erases all prior slots of the address and then applies exactly the given
pairs, so any slot not listed reads zero; with reset_storage false the
pairs are merged into the existing storage, a pair assigning zero clears
its slot, and slots not listed are unaffected. -/
theorem claim2_storage_reset_merge (st : AccountMap) (a : Nat) (bas : Basic)
    (code : Option (List Nat)) (pairs : List (Nat × Nat)) :
    (∀ k, readStorage (applyRec st (.Modify a bas code pairs true)) a k =
        lookupD (applyPairs pairs []) k)
    ∧ (∀ k, k ∉ pairs.map Prod.fst →
        readStorage (applyRec st (.Modify a bas code pairs true)) a k = 0)
    ∧ (∀ k, readStorage (applyRec st (.Modify a bas code pairs false)) a k =
        lookupD (applyPairs pairs
          (((alookup st a).getD MemoryAccount.default).storage)) k)
    ∧ (∀ k, lastAssigned pairs k = some 0 →
        readStorage (applyRec st (.Modify a bas code pairs false)) a k = 0)
    ∧ (∀ k, k ∉ pairs.map Prod.fst →
        readStorage (applyRec st (.Modify a bas code pairs false)) a k =
          readStorage st a k) := by
  have htrue : ∀ k, readStorage (applyRec st (.Modify a bas code pairs true)) a k =
      lookupD (applyPairs pairs []) k := by
    intro k
    simp [readStorage, alookup_applyRec_modify_self]
  have hfalse : ∀ k, readStorage (applyRec st (.Modify a bas code pairs false)) a k =
      lookupD (applyPairs pairs (((alookup st a).getD MemoryAccount.default).storage)) k := by
    intro k
    simp [readStorage, alookup_applyRec_modify_self]
  refine ⟨htrue, ?_, hfalse, ?_, ?_⟩
  · intro k hk
    rw [htrue k, lookupD_applyPairs, lastAssigned_eq_none pairs k hk]
    rfl
  · intro k hk
    rw [hfalse k, lookupD_applyPairs, hk]
  · intro k hk
    rw [hfalse k, lookupD_applyPairs, lastAssigned_eq_none pairs k hk]
    cases h : alookup st a with
    | none => simp [readStorage, h, lookupD, MemoryAccount.default]
    | some acct => simp [readStorage, h]

/-- Claim C2 witness at concrete inputs: with prior storage holding slots
1 = 5 and 3 = 9, a reset Modify listing only (1, 1) makes slot 1 read 1 and
slot 3 read 0, and a merge Modify listing (2, 7) leaves slot 3 unchanged. -/
theorem claim2_storage_reset_merge_witness :
    (3 ∉ ([(1, 1)] : List (Nat × Nat)).map Prod.fst)
    ∧ readStorage (applyRec [(10, ⟨0, 0, [(1, 5), (3, 9)], []⟩)]
        (.Modify 10 ⟨0, 0⟩ none [(1, 1)] true)) 10 3 = 0 :=
  ⟨by decide,
    (claim2_storage_reset_merge [(10, ⟨0, 0, [(1, 5), (3, 9)], []⟩)] 10 ⟨0, 0⟩ none
      [(1, 1)]).2.1 3 (by decide)⟩

/-- Claim C9: a Modify with absent code leaves the address's code
unchanged by apply; a Modify with present code bytes (empty included)
replaces the code, and the code hash becomes the hash of those bytes. -/
theorem claim9_code_replacement (b : MemoryBackend) (a : Nat) (bas : Basic)
    (pairs : List (Nat × Nat)) (rs : Bool) (logs : List Log) (delete_empty : Bool) :
    ((b.apply [.Modify a bas none pairs rs] logs delete_empty).code a = b.code a)
    ∧ ∀ bytes,
        (b.apply [.Modify a bas (some bytes) pairs rs] logs delete_empty).code a = bytes
        ∧ (b.apply [.Modify a bas (some bytes) pairs rs] logs delete_empty).code_hash a =
            hashOfCode bytes := by
  have hold : ((alookup b.state a).getD MemoryAccount.default).code = readCode b.state a := by
    cases h : alookup b.state a with
    | none => simp [readCode, h, MemoryAccount.default]
    | some acct => simp [readCode, h]
  have key : ∀ code : Option (List Nat),
      readCode (b.apply [.Modify a bas code pairs rs] logs delete_empty).state a =
        code.getD (readCode b.state a) := by
    intro code
    have hrec : readCode (applyRec b.state (.Modify a bas code pairs rs)) a =
        code.getD (readCode b.state a) := by
      simp only [readCode, alookup_applyRec_modify_self]
      rw [hold]
      rfl
    cases delete_empty with
    | false => exact hrec
    | true =>
      show readCode (pruneEmpty [a] (applyRec b.state (.Modify a bas code pairs rs))) a =
        code.getD (readCode b.state a)
      rw [readCode_pruneEmpty]
      exact hrec
  refine ⟨?_, fun bytes => ⟨?_, ?_⟩⟩
  · exact key none
  · exact key (some bytes)
  · show hashOfCode (readCode (b.apply [.Modify a bas (some bytes) pairs rs]
      logs delete_empty).state a) = hashOfCode bytes
    rw [key (some bytes)]
    rfl

/-- Claim C1 counterexample: a Modify record that creates an account with
zero balance, zero nonce, no code and no storage, applied with
delete_empty false, leaves an account that does not exist afterwards
(exists tests for a non-default footprint), although the claim says the
touched empty account still exists when delete_empty is false. -/
theorem claim1_counterexample :
    (1 ∈ touchedAddrs [Apply.Modify 1 ⟨0, 0⟩ none [] false])
    ∧ readBasic (applyValues [Apply.Modify 1 ⟨0, 0⟩ none [] false]
        (MemoryBackend.empty vic0).state) 1 = Basic.default
    ∧ readCode (applyValues [Apply.Modify 1 ⟨0, 0⟩ none [] false]
        (MemoryBackend.empty vic0).state) 1 = []
    ∧ ((MemoryBackend.empty vic0).apply [Apply.Modify 1 ⟨0, 0⟩ none [] false] []
        false).existsAddr 1 = false := by
  decide

/-- Claim C1 (amended): with delete_empty true, any account that is empty
(zero balance, zero nonce, no code) after processing all records and was
touched by a record of this call does not exist afterwards; with
delete_empty false, the same account still exists provided some storage
slot of it reads a nonzero value after processing; and an account not
touched by any record of this call keeps its state-map entry unchanged,
even if it is empty. -/
theorem claim1_empty_account_pruning (b : MemoryBackend) (values : List Apply)
    (logs : List Log) (a : Nat) :
    (a ∈ touchedAddrs values →
      readBasic (applyValues values b.state) a = Basic.default →
      readCode (applyValues values b.state) a = [] →
      (b.apply values logs true).existsAddr a = false)
    ∧ ((∃ k, readStorage (applyValues values b.state) a k ≠ 0) →
      (b.apply values logs false).existsAddr a = true)
    ∧ (∀ delete_empty, a ∉ touchedAddrs values →
      alookup (b.apply values logs delete_empty).state a = alookup b.state a) := by
  refine ⟨?_, ?_, fun delete_empty h => alookup_apply_notTouched b values logs delete_empty a h⟩
  · intro htouch hbasic hcode
    show readExists (pruneEmpty (touchedAddrs values) (applyValues values b.state)) a = false
    rw [readExists, alookup_pruneEmpty]
    cases h : alookup (applyValues values b.state) a with
    | none => rfl
    | some acct =>
      have hb : acct.balance = 0 ∧ acct.nonce = 0 := by
        rw [readBasic, h] at hbasic
        exact ⟨congrArg Basic.balance hbasic, congrArg Basic.nonce hbasic⟩
      have hc : acct.code = [] := by
        rw [readCode, h] at hcode
        exact hcode
      have hemp : acct.isEmptyAcct := ⟨hb.1, hb.2, hc⟩
      simp [htouch, hemp]
  · intro hk
    show readExists (applyValues values b.state) a = true
    rw [readExists_iff]
    exact Or.inr (Or.inr (Or.inr hk))

/-- Claim C1 witness: a touched account that is empty but holds a nonzero
storage slot after processing still exists when delete_empty is false. -/
theorem claim1_empty_account_pruning_witness :
    ((MemoryBackend.empty vic0).apply [Apply.Modify 1 ⟨0, 0⟩ none [(7, 5)] false] []
      false).existsAddr 1 = true :=
  (claim1_empty_account_pruning (MemoryBackend.empty vic0)
    [Apply.Modify 1 ⟨0, 0⟩ none [(7, 5)] false] [] 1).2.1 ⟨7, by decide⟩

theorem alookup_runApplies_untouched (b : MemoryBackend) (calls : List ApplyCall)
    (a : Nat) (h : untouchedBy a calls = true) :
    alookup (runApplies b calls).state a = alookup b.state a := by
  induction calls generalizing b with
  | nil => rfl
  | cons c rest ih =>
    rw [untouchedBy, List.all_cons, Bool.and_eq_true] at h
    have hnot : a ∉ touchedAddrs c.values := by
      intro hmem
      rw [touchedAddrs, List.mem_map] at hmem
      obtain ⟨rec, hrec, haddr⟩ := hmem
      have := List.all_eq_true.mp h.1 rec hrec
      rw [haddr] at this
      simp at this
    show alookup (runApplies (b.apply c.values c.logs c.delete_empty) rest).state a =
      alookup b.state a
    rw [ih (b.apply c.values c.logs c.delete_empty) h.2,
      alookup_apply_notTouched b c.values c.logs c.delete_empty a hnot]

/-- Claim C8: all reads at an address never touched by any apply call,
starting from a fresh backend, return the defaults: basic is
Basic.default (zero balance, zero nonce), code is empty, code_hash is
the canonical empty-code hash, code_size is zero, every storage slot
reads zero, and exists is false; every read is a total function, so
absence is never an error. -/
theorem claim8_untouched_defaults (v : MemoryVicinity) (calls : List ApplyCall)
    (a : Nat) (h : untouchedBy a calls = true) :
    (runApplies (MemoryBackend.empty v) calls).basic a = Basic.default
    ∧ Basic.default = ⟨0, 0⟩
    ∧ (runApplies (MemoryBackend.empty v) calls).code a = []
    ∧ (runApplies (MemoryBackend.empty v) calls).code_hash a = emptyCodeHash
    ∧ (runApplies (MemoryBackend.empty v) calls).code_size a = 0
    ∧ (∀ k, (runApplies (MemoryBackend.empty v) calls).storage a k = 0)
    ∧ (runApplies (MemoryBackend.empty v) calls).existsAddr a = false := by
  have hnone : alookup (runApplies (MemoryBackend.empty v) calls).state a = none := by
    rw [alookup_runApplies_untouched (MemoryBackend.empty v) calls a h]
    rfl
  refine ⟨?_, rfl, ?_, ?_, ?_, fun k => ?_, ?_⟩
  · show readBasic _ a = Basic.default
    rw [readBasic, hnone]
  · show readCode _ a = []
    rw [readCode, hnone]
  · show hashOfCode (readCode _ a) = emptyCodeHash
    rw [readCode, hnone]
    rfl
  · show (readCode _ a).length = 0
    rw [readCode, hnone]
    rfl
  · show readStorage _ a k = 0
    rw [readStorage, hnone]
  · show readExists _ a = false
    rw [readExists, hnone]

/-- Claim C8 witness: address 2, untouched by a call that modifies
address 1, reads the default basic account. -/
theorem claim8_untouched_defaults_witness :
    untouchedBy 2 [⟨[Apply.Modify 1 ⟨5, 1⟩ none [(2, 3)] false], [⟨1, [], []⟩], true⟩] = true
    ∧ (runApplies (MemoryBackend.empty vic0)
        [⟨[Apply.Modify 1 ⟨5, 1⟩ none [(2, 3)] false], [⟨1, [], []⟩], true⟩]).basic 2 =
      Basic.default :=
  ⟨by decide,
    (claim8_untouched_defaults vic0
      [⟨[Apply.Modify 1 ⟨5, 1⟩ none [(2, 3)] false], [⟨1, [], []⟩], true⟩] 2 (by decide)).1⟩

theorem step_fst_of_read (b : MemoryBackend) (q : Query) (h : isApplyQ q = false) :
    (step b q).1 = b := by
  cases q <;> first | rfl | exact Bool.noConfusion h

/-- Claim C10: a sequence of Backend reads and handle_call invocations
with no apply leaves the backend state unchanged, so any two reads of the
same accessor with no intervening apply return the same answer; only
apply mutates state. -/
theorem claim10_reads_pure (b : MemoryBackend) (qs : List Query)
    (h : qs.all (fun q => !isApplyQ q) = true) :
    runQueries b qs = b ∧ ∀ q : Query, step (runQueries b qs) q = step b q := by
  have hrun : runQueries b qs = b := by
    induction qs with
    | nil => rfl
    | cons q rest ih =>
      rw [List.all_cons, Bool.and_eq_true] at h
      have hq : isApplyQ q = false := by
        cases hq : isApplyQ q with
        | false => rfl
        | true => rw [hq] at h; exact absurd h.1 (by simp)
      show runQueries (step b q).1 rest = b
      rw [step_fst_of_read b q hq]
      exact ih h.2
  exact ⟨hrun, fun q => by rw [hrun]⟩

/-- Claim C10 witness: a run of two reads and one declined handle_call
leaves a concrete backend unchanged. -/
theorem claim10_reads_pure_witness :
    ([Query.qBasic 1, Query.qStorage 1 2,
        Query.qHandleCall 5 none [] none false false false ⟨1, 2, 3⟩].all
      (fun q => !isApplyQ q) = true)
    ∧ runQueries (MemoryBackend.empty vic0)
        [Query.qBasic 1, Query.qStorage 1 2,
          Query.qHandleCall 5 none [] none false false false ⟨1, 2, 3⟩] =
      MemoryBackend.empty vic0 :=
  ⟨by decide,
    (claim10_reads_pure (MemoryBackend.empty vic0)
      [Query.qBasic 1, Query.qStorage 1 2,
        Query.qHandleCall 5 none [] none false false false ⟨1, 2, 3⟩] (by decide)).1⟩

end EvmBackend
